import Mathlib

/-!
# Verification development for cannonade

A shallow embedding of the execution engine of the cannonade load-generation
tool (`cannonade.go`): the worker pool (`cannonade`/`fire`), the stage runner
(`runTask`), the schedule loop of `main`, and the statistics aggregator
(`printStats`).

Conventions of the embedding:
* Go `time.Duration` values are nanosecond counts, modelled as `Int`.
* Go `float64` arithmetic on latencies is modelled exactly over `ℚ`; the
  IEEE not-a-number and infinity sentinels produced on degenerate inputs are
  modelled by the dedicated type `GoFloat`.
* Channels: the buffered `pipeline` channel of `runTask` is modelled by its
  operation trace (`ChanOp`) and by a buffer-counter for the capacity
  argument; a worker receives some finite subsequence of the queued payloads.
* The HTTP call is modelled by its observable result (`HttpResult`):
  a transport error (including a timeout), an error while reading the
  response body, or a fully received response with a status code and a body.
-/

namespace Cannonade

/-- An opaque serialized request body (a `[]byte` cannonball). -/
abbrev Payload := String

/-- Embedding of the `Response` struct: body, success flag and the measured
latency (`time.Duration`, i.e. a nanosecond count). -/
structure Response where
  body : String
  success : Bool
  latency : Int
deriving DecidableEq

/-- The observable result of the HTTP POST performed by `fire`
(cannonade.go:151-174): either `client.Post` fails (transport error or
timeout), or reading the response body fails, or a response is fully
received with a status code and a body. -/
inductive HttpResult where
  | transportError (msg : String)
  | readError (msg : String)
  | ok (status : Nat) (body : String)
deriving DecidableEq

/-- Embedding of `fire` (cannonade.go:151-174): returns the body string and
the success flag.  A transport error or a body-read error yields a
diagnostic string and `false`; otherwise the response body is returned and
the call is successful exactly when the status code is 200. -/
def fire (r : HttpResult) : String × Bool :=
  match r with
  | .transportError msg => ("Error while sending the request: " ++ msg, false)
  | .readError msg => ("Error while parsing the response: " ++ msg, false)
  | .ok status body => (body, status == 200)

/-! ## The worker loop (`cannonade`, cannonade.go:176-195) -/

/-- Result of one attempted append to the metrics sink
(`logger.Output`, cannonade.go:191). -/
inductive SinkWrite where
  | ok
  | failed
deriving DecidableEq

/-- Embedding of one iteration of the worker loop body
(cannonade.go:186-194): perform `fire`, then, when the metrics logger is
enabled, `panicIf(logger.Output(...))` — a failed sink write panics the
worker (`Except.error`); otherwise the iteration emits exactly one
`Response` on the results channel (`Except.ok`). -/
def workerIteration (metrics : Bool) (sink : SinkWrite) (r : HttpResult)
    (lat : Int) : Except String Response :=
  let fired := fire r
  if metrics then
    match sink with
    | .failed => .error "panic: metrics sink write failed"
    | .ok => .ok ⟨fired.1, fired.2, lat⟩
  else .ok ⟨fired.1, fired.2, lat⟩

/-- Embedding of the worker startup (cannonade.go:179-184): when metrics are
enabled the worker opens `metrics.log` and `panicIf`s on failure, before the
loop starts.  Returns whether a logger was installed. -/
def workerStartup (metrics : Bool) (openFailed : Bool) : Except String Bool :=
  if metrics && openFailed then .error "panic: cannot open metrics.log"
  else .ok metrics

/-- How a worker goroutine ends up after the queue holds no more items:
its `for range` loop either exits (channel closed) or blocks on the next
receive (channel still open). -/
inductive WorkerEnd where
  | terminated
  | blockedOnRecv
deriving DecidableEq

/-- Embedding of a whole worker (`for cannonball := range pipeline`,
cannonade.go:186-195) run on the finite sequence `queue` of payloads this
worker receives from the pipeline, without sink failures: one `fire` call
and one emitted `Response` per payload; after the queue is exhausted the
`range` loop terminates if the channel is closed and blocks otherwise.
`beh` gives the HTTP result and `lat` the measured latency for a payload. -/
def workerRun (queue : List Payload) (closed : Bool)
    (beh : Payload → HttpResult) (lat : Payload → Int) :
    List Response × WorkerEnd :=
  match queue with
  | [] => ([], if closed then .terminated else .blockedOnRecv)
  | p :: rest =>
      let fired := fire (beh p)
      let next := workerRun rest closed beh lat
      (⟨fired.1, fired.2, lat p⟩ :: next.1, next.2)

/-! ## Channel operations of `runTask` (cannonade.go:250-312) -/

/-- Operations a goroutine can perform on the sending side of a channel. -/
inductive ChanOp where
  | send
  | close
deriving DecidableEq

/-- The complete trace of operations `runTask` performs on the sending side
of the `pipeline` channel (cannonade.go:252-274): the enqueue loop sends
`numRequests` payloads; no other operation — in particular no `close` —
appears anywhere in `runTask`. -/
def runTaskPipelineOps (numRequests : Nat) : List ChanOp :=
  (List.range numRequests).map (fun _ => ChanOp.send)

/-- Whether a trace of channel operations ever closes the channel. -/
def pipelineClosed (ops : List ChanOp) : Bool :=
  ops.contains ChanOp.close

/-- A buffered-channel send with no concurrent receiver: succeeds (buffer
grows) when the buffer is below capacity, blocks otherwise. -/
def chanSend (cap buf : Nat) : Option Nat :=
  if buf < cap then some (buf + 1) else none

/-- The producer loop of `runTask` (cannonade.go:260-265) as `k` successive
sends into a channel of capacity `cap` whose buffer currently holds `buf`
items, with the workers not yet started: `none` when some send blocks. -/
def enqueueFill (cap : Nat) : Nat → Nat → Option Nat
  | 0, buf => some buf
  | k + 1, buf =>
      match chanSend cap buf with
      | some b => enqueueFill cap k b
      | none => none

/-- The capacity `runTask` gives the `pipeline` channel
(`make(chan []byte, task.NumRequests)`, cannonade.go:252). -/
def pipelineCapacity (numRequests : Nat) : Nat := numRequests

/-- The payloads sent by the enqueue loop of `runTask`
(cannonade.go:259-265): `mk k` is the result of the `k`-th call of
`makeCannonball`; the ball is regenerated before each send with `r > 0`
exactly when the task is noisy, otherwise the initial ball is reused. -/
def enqueueLoop (noisy : Bool) (mk : Nat → Payload) (n : Nat) : List Payload :=
  (List.range n).map (fun r => if noisy && decide (0 < r) then mk r else mk 0)

/-! ## The drain loop of `runTask` (cannonade.go:284-301) -/

/-- The value appended to the latency array for a successful response
(`float64(response.Latency)/math.Pow10(6)`, cannonade.go:289), i.e. the
nanosecond duration divided by 10^6. -/
def latencyToMs (ns : Int) : ℚ := (ns : ℚ) / 1000000

/-- The numeric value a worker hands to the metrics sink formatter
(`float64(latency)/math.Pow10(6)`, cannonade.go:191). -/
def metricsLineValue (ns : Int) : ℚ := (ns : ℚ) / 1000000

/-- The stage elapsed time in seconds
(`float64(time.Since(start))/math.Pow10(9)`, cannonade.go:305). -/
def elapsedToSeconds (ns : Int) : ℚ := (ns : ℚ) / 1000000000

/-- Embedding of the drain loop of `runTask` (cannonade.go:284-301): draw
exactly `n` responses from the results channel — `f r` being the `r`-th
response drained — appending the latency in milliseconds for a success and
bumping the failure counter otherwise. -/
def drainLoop (f : Nat → Response) : Nat → List ℚ × Nat
  | 0 => ([], 0)
  | n + 1 =>
      let acc := drainLoop f n
      let r := f n
      if r.success then (acc.1 ++ [latencyToMs r.latency], acc.2)
      else (acc.1, acc.2 + 1)

/-! ## The statistics aggregator (`printStats`, cannonade.go:197-248)

The descriptive statistics come from the external `stats` library, which is
not part of this repository.  Its routines are modelled from the spec:
each statistic errors on empty input (and `printStats` then substitutes a
not-a-number sentinel), the percentile uses linear interpolation between
order statistics, and the sorting step sorts ascending. -/

/-- A Go `float64` as it appears in the report: an exact rational, an
infinity, or the not-a-number sentinel. -/
inductive GoFloat where
  | real (q : ℚ)
  | inf (neg : Bool)
  | nan
deriving DecidableEq

/-- IEEE division of a `GoFloat` by an integer count
(`sum / float64(numRequests)`, cannonade.go:215). -/
def GoFloat.divInt : GoFloat → Int → GoFloat
  | .nan, _ => .nan
  | .inf s, n => if n = 0 then .inf s else .inf (s != decide (n < 0))
  | .real q, n =>
      if n = 0 then (if q = 0 then .nan else .inf (decide (q < 0)))
      else .real (q / n)

/-- IEEE division of two finite `float64` values
(`float64(numRequests) / totalSeconds`, cannonade.go:216). -/
def goDivQ (a b : ℚ) : GoFloat :=
  if b = 0 then (if a = 0 then .nan else .inf (decide (a < 0)))
  else .real (a / b)

/-- An erroring statistic, as `printStats` consumes it: `none` becomes the
not-a-number sentinel (cannonade.go:198-213, 235-238). -/
def optToF : Option ℚ → GoFloat
  | none => .nan
  | some q => .real q

/-- Modelled from the spec: the minimum of the latency collection; errors
(`none`) on empty input, otherwise folds the running minimum over the
values. -/
def statsMin : List ℚ → Option ℚ
  | [] => none
  | x :: xs => some (xs.foldl min x)

/-- Modelled from the spec: the maximum of the latency collection; errors
(`none`) on empty input, otherwise folds the running maximum over the
values. -/
def statsMax : List ℚ → Option ℚ
  | [] => none
  | x :: xs => some (xs.foldl max x)

/-- Modelled from the spec: the sum of the latency collection; errors
(`none`) on empty input. -/
def statsSum : List ℚ → Option ℚ
  | [] => none
  | x :: xs => some ((x :: xs).foldl (· + ·) 0)

/-- The ascending sort used by the statistics routines (the library sorts a
copy of the data before taking order statistics). -/
def sortAsc (l : List ℚ) : List ℚ :=
  List.insertionSort (· ≤ ·) l

/-- Modelled from the spec: the median — middle order statistic of the
sorted data, averaging the two middle values for an even length; errors on
empty input. -/
def statsMedian (l : List ℚ) : Option ℚ :=
  match l with
  | [] => none
  | _ =>
      let c := sortAsc l
      let n := c.length
      if n % 2 = 0 then some ((c.getD (n / 2 - 1) 0 + c.getD (n / 2) 0) / 2)
      else some (c.getD (n / 2) 0)

/-- Modelled from the spec: the percentile of the latency collection at
threshold `p`, by linear interpolation between order statistics: with the
data sorted ascending and `index = (p/100) · n`, a whole `index` selects the
`index`-th order statistic, a fractional `index > 1` averages the two order
statistics around it; empty input or an out-of-range threshold errors. -/
def percentile (l : List ℚ) (p : ℚ) : Option ℚ :=
  if l.length = 0 then none
  else if l.length = 1 then some (l.getD 0 0)
  else if p ≤ 0 ∨ 100 < p then none
  else if (p / 100 * ((sortAsc l).length : ℚ)).den = 1 then
    some ((sortAsc l).getD ((p / 100 * ((sortAsc l).length : ℚ)).num.toNat - 1) 0)
  else if 1 < p / 100 * ((sortAsc l).length : ℚ) then
    some (((sortAsc l).getD ((p / 100 * ((sortAsc l).length : ℚ)).floor.toNat - 1) 0 +
      (sortAsc l).getD ((p / 100 * ((sortAsc l).length : ℚ)).floor.toNat) 0) / 2)
  else none

/-- The percentile thresholds reported by `printStats` (cannonade.go:231). -/
def pthresholds : List ℚ := [50, 80, 90, 95, 99, 100]

/-- The report produced by `printStats`: the two printed tables, with the
request and failure counts as integers and every statistic as a `float64`
value. -/
structure StatsReport where
  numRequests : Int
  numFails : Int
  avg : GoFloat
  min : GoFloat
  max : GoFloat
  median : GoFloat
  rps : GoFloat
  percentiles : List GoFloat
deriving DecidableEq

/-- Embedding of `printStats` (cannonade.go:197-248): each statistic that
errors is replaced by the not-a-number sentinel; the mean is
`sum / float64(numRequests)` and the throughput
`float64(numRequests) / totalSeconds`; the percentile table evaluates the
thresholds 50, 80, 90, 95, 99, 100. -/
def printStats (latencies : List ℚ) (totalSeconds : ℚ)
    (numRequests numFails : Int) : StatsReport :=
  { numRequests := numRequests
    numFails := numFails
    avg := (optToF (statsSum latencies)).divInt numRequests
    min := optToF (statsMin latencies)
    max := optToF (statsMax latencies)
    median := optToF (statsMedian latencies)
    rps := goDivQ numRequests totalSeconds
    percentiles := pthresholds.map (fun t => optToF (percentile latencies t)) }

/-- The arithmetic mean as the spec words it: the sum of the successful
latencies divided by the number of successful latencies.  Stated from the
spec, for comparison with the mean `printStats` actually reports. -/
def specMean (l : List ℚ) : ℚ :=
  l.sum / l.length

/-! ## The schedule loop of `main` (cannonade.go:364-378) -/

/-- Embedding of Go `strings.Split` for a single-character separator: splits
around every occurrence of the separator character. -/
def splitOnChar (sep : Char) : List Char → List (List Char)
  | [] => [[]]
  | c :: rest =>
      let r := splitOnChar sep rest
      if c = sep then [] :: r
      else
        match r with
        | [] => [[c]]
        | g :: gs => (c :: g) :: gs

/-- Go `strings.Split(s, sep)` for a one-character separator, on strings. -/
def goSplit (s : String) (sep : Char) : List String :=
  (splitOnChar sep s.data).map (fun cs => String.mk cs)

/-- One decimal digit of `strconv.Atoi`. -/
def digitVal (c : Char) : Option Nat :=
  if decide ('0' ≤ c) && decide (c ≤ '9') then some (c.toNat - 48) else none

/-- Accumulate decimal digits; errors on any non-digit character. -/
def parseDigitsGo (acc : Nat) : List Char → Option Nat
  | [] => some acc
  | c :: cs =>
      match digitVal c with
      | some d => parseDigitsGo (acc * 10 + d) cs
      | none => none

/-- A non-empty all-digit run, as `strconv.Atoi` requires after the sign. -/
def parseDigits : List Char → Option Nat
  | [] => none
  | cs => parseDigitsGo 0 cs

/-- Embedding of `strconv.Atoi` (for values within the machine-int range,
range overflow not modelled): an optional sign followed by at least one
decimal digit; anything else errors. -/
def atoi (s : String) : Option Int :=
  match s.data with
  | [] => none
  | '+' :: cs => (parseDigits cs).map (fun n => (n : Int))
  | '-' :: cs => (parseDigits cs).map (fun n => -(n : Int))
  | cs => (parseDigits cs).map (fun n => (n : Int))

/-- Embedding of the per-milestone parsing in the schedule loop
(cannonade.go:369-375): split the milestone on the `@` character, then
`strconv.Atoi` the first part (request count) and the second part
(client count); a missing second part is an index-out-of-range panic and an
`Atoi` failure a `panicIf` panic — both abort the run (`none`). -/
def parseMilestone (m : String) : Option (Int × Int) :=
  let parts := goSplit m '@'
  if parts.length < 2 then none
  else
    match atoi (parts.getD 0 ""), atoi (parts.getD 1 "") with
    | some a, some b => some (a, b)
    | _, _ => none

/-- Embedding of the schedule loop body over the milestone list
(cannonade.go:368-378): each milestone is parsed and its stage run
(`runTask`) before the next milestone is even looked at; the first invalid
milestone panics, aborting the run.  Returns the list of stages that were
executed, paired with whether the run aborted. -/
def milestoneLoop : List String → List (Int × Int) × Bool
  | [] => ([], false)
  | m :: ms =>
      match parseMilestone m with
      | none => ([], true)
      | some st =>
          let rest := milestoneLoop ms
          (st :: rest.1, rest.2)

/-- The whole schedule run of `main`: split the schedule string on commas
and execute the milestones in order. -/
def scheduleRun (s : String) : List (Int × Int) × Bool :=
  milestoneLoop (goSplit s ',')

/-! ## Helper lemmas -/

theorem drainLoop_count (f : Nat → Response) :
    ∀ n, (drainLoop f n).1.length + (drainLoop f n).2 = n := by
  intro n
  induction n with
  | zero => simp [drainLoop]
  | succ k ih =>
      by_cases h : (f k).success <;> simp [drainLoop, h] <;> omega

theorem workerRun_length (beh : Payload → HttpResult) (lat : Payload → Int) :
    ∀ (q : List Payload) (c : Bool), (workerRun q c beh lat).1.length = q.length := by
  intro q c
  induction q with
  | nil => simp [workerRun]
  | cons p rest ih => simp [workerRun, ih]

theorem workerRun_end (beh : Payload → HttpResult) (lat : Payload → Int) :
    ∀ (q : List Payload) (c : Bool),
      (workerRun q c beh lat).2 = if c then .terminated else .blockedOnRecv := by
  intro q c
  induction q with
  | nil => simp [workerRun]
  | cons p rest ih => simp [workerRun, ih]

theorem enqueueFill_no_block :
    ∀ (k cap buf : Nat), buf + k ≤ cap → enqueueFill cap k buf = some (buf + k) := by
  intro k
  induction k with
  | zero => intro cap buf _; simp [enqueueFill]
  | succ j ih =>
      intro cap buf h
      have hlt : buf < cap := by omega
      have := ih cap (buf + 1) (by omega)
      simp [enqueueFill, chanSend, hlt, this]
      omega

theorem milestoneLoop_fst :
    ∀ ms : List String,
      (milestoneLoop ms).1 =
        (ms.takeWhile (fun x => (parseMilestone x).isSome)).filterMap parseMilestone := by
  intro ms
  induction ms with
  | nil => simp [milestoneLoop]
  | cons m rest ih =>
      cases h : parseMilestone m with
      | none => simp [milestoneLoop, h, List.takeWhile_cons]
      | some st => simp [milestoneLoop, h, List.takeWhile_cons, ih]

theorem milestoneLoop_snd :
    ∀ ms : List String,
      ((milestoneLoop ms).2 = true ↔ ¬ ∀ x ∈ ms, (parseMilestone x).isSome = true) := by
  intro ms
  induction ms with
  | nil => simp [milestoneLoop]
  | cons m rest ih =>
      cases h : parseMilestone m with
      | none => simp [milestoneLoop, h]
      | some st => simp [milestoneLoop, h, ih]

theorem statsSum_eq_sum (l : List ℚ) (h : l ≠ []) : statsSum l = some l.sum := by
  cases l with
  | nil => exact absurd rfl h
  | cons x xs =>
      rw [List.sum_eq_foldl]
      rfl

theorem foldl_max_mem (x : ℚ) (xs : List ℚ) : xs.foldl max x ∈ x :: xs := by
  induction xs generalizing x with
  | nil => simp
  | cons y ys ih =>
      have h := ih (max x y)
      rw [List.foldl_cons]
      rcases List.mem_cons.mp h with h1 | h1
      · rw [h1]
        rcases max_choice x y with hm | hm <;> rw [hm] <;> simp
      · exact List.mem_cons_of_mem _ (List.mem_cons_of_mem _ h1)

theorem le_foldl_max (x : ℚ) (xs : List ℚ) : ∀ a ∈ x :: xs, a ≤ xs.foldl max x := by
  induction xs generalizing x with
  | nil => intro a ha; simp at ha; simp [ha]
  | cons y ys ih =>
      intro a ha
      rcases List.mem_cons.mp ha with h | h
      · subst h
        exact le_trans (le_max_left a y) (ih (max a y) _ (List.mem_cons_self _ _))
      · rcases List.mem_cons.mp h with h2 | h2
        · subst h2
          exact le_trans (le_max_right x a) (ih (max x a) _ (List.mem_cons_self _ _))
        · exact ih (max x y) a (List.mem_cons_of_mem _ h2)

theorem statsMax_spec (l : List ℚ) (h : l ≠ []) :
    ∃ m, statsMax l = some m ∧ m ∈ l ∧ ∀ x ∈ l, x ≤ m := by
  cases l with
  | nil => exact absurd rfl h
  | cons x xs =>
      exact ⟨xs.foldl max x, rfl, foldl_max_mem x xs, le_foldl_max x xs⟩

theorem sorted_getD_last_le (c : List ℚ) (hc : c.Sorted (· ≤ ·)) :
    ∀ x ∈ c, x ≤ c.getD (c.length - 1) 0 := by
  induction c with
  | nil => intro x hx; simp at hx
  | cons a rest ih =>
      intro x hx
      cases rest with
      | nil => simp at hx; simp [hx, List.getD]
      | cons b t =>
          have hlen : (a :: b :: t).length - 1 = (b :: t).length - 1 + 1 := by
            simp
          rw [hlen, List.getD_cons_succ]
          rcases List.mem_cons.mp hx with h | h
          · subst h
            refine le_trans (List.rel_of_sorted_cons hc b (List.mem_cons_self _ _)) ?_
            exact ih hc.of_cons b (List.mem_cons_self _ _)
          · exact ih hc.of_cons x h

theorem getD_last_mem (c : List ℚ) (h : c ≠ []) : c.getD (c.length - 1) 0 ∈ c := by
  have hlt : c.length - 1 < c.length := by
    cases c with
    | nil => exact absurd rfl h
    | cons a t => simp
  rw [List.getD_eq_getElem c 0 hlt]
  exact List.getElem_mem hlt

theorem percentile_100_eq_statsMax (l : List ℚ) (hl : l ≠ []) :
    percentile l 100 = statsMax l := by
  rcases statsMax_spec l hl with ⟨m, hmax, hmem, hub⟩
  have hlen : l.length ≠ 0 := by simpa using fun h => hl (List.eq_nil_of_length_eq_zero h)
  by_cases h1 : l.length = 1
  · rcases l with _ | ⟨x, xs⟩
    · exact absurd rfl hl
    · have hxs : xs = [] := by
        simpa using h1
      subst hxs
      rfl
  · have hsorted : List.Sorted (· ≤ ·) (sortAsc l) := List.sorted_insertionSort _ l
    have hperm : List.Perm (sortAsc l) l := List.perm_insertionSort _ l
    have hclen : (sortAsc l).length = l.length := hperm.length_eq
    have hcne : sortAsc l ≠ [] := by
      intro hc
      rw [hc] at hclen
      exact hlen hclen.symm
    have hindex : (100 : ℚ) / 100 * ((sortAsc l).length : ℚ) = ((sortAsc l).length : ℚ) := by
      norm_num
    have hL := getD_last_mem (sortAsc l) hcne
    have hLle : ∀ x ∈ sortAsc l, x ≤ (sortAsc l).getD ((sortAsc l).length - 1) 0 :=
      sorted_getD_last_le (sortAsc l) hsorted
    have heq : (sortAsc l).getD ((sortAsc l).length - 1) 0 = m := by
      refine le_antisymm (hub _ (hperm.mem_iff.mp hL)) ?_
      exact hLle m (hperm.mem_iff.mpr hmem)
    simp only [percentile]
    rw [if_neg hlen, if_neg h1, if_neg (by norm_num), hindex,
      if_pos (Rat.den_natCast _)]
    simp only [Rat.num_natCast, Int.toNat_natCast]
    rw [heq, hmax]

/-! ## Claim theorems -/

/-- C1: for a stage with `requestCount = N`, the enqueue loop of `runTask`
sends exactly `N` payloads, the drain loop draws exactly `N` outcomes, and
each drained outcome is counted exactly once — as a latency entry or as a
failure — so the latency array has length `N` minus the failure count. -/
theorem c1_stage_counts (noisy : Bool) (mk : Nat → Payload)
    (f : Nat → Response) (n : Nat) :
    (enqueueLoop noisy mk n).length = n ∧
    (drainLoop f n).2 ≤ n ∧
    (drainLoop f n).1.length + (drainLoop f n).2 = n ∧
    (drainLoop f n).1.length = n - (drainLoop f n).2 := by
  have h := drainLoop_count f n
  exact ⟨by simp [enqueueLoop], by omega, h, by omega⟩

/-- C2 counterexample: with one successful latency of 10 ms out of two
requests (one failure), `printStats` reports a mean of 10 / 2 = 5, not the
arithmetic mean 10 of the latency collection — the code divides the latency
sum by the total request count, refuting the claim as stated. -/
theorem c2_counterexample :
    (printStats [10] 1 2 1).avg ≠ GoFloat.real (specMean [10]) := by
  have h5 : (printStats [10] 1 2 1).avg = .real 5 := by with_unfolding_all rfl
  rw [h5]
  intro h
  have h2 := GoFloat.real.inj h
  norm_num [specMean] at h2

/-- C2 amended: `printStats` reports as the mean the sum of the successful
latencies divided by the TOTAL request count `numRequests`; this coincides
with the arithmetic mean of the latency collection exactly when
`numRequests` equals the number of successful latencies (no failures). -/
theorem c2_amended (l : List ℚ) (t : ℚ) (n f : Int) (hl : l ≠ []) (hn : n ≠ 0) :
    (printStats l t n f).avg = .real (l.sum / (n : ℚ)) ∧
    (((n : Int) : ℚ) = (l.length : ℚ) →
      (printStats l t n f).avg = .real (specMean l)) := by
  have havg : (printStats l t n f).avg = .real (l.sum / (n : ℚ)) := by
    show (optToF (statsSum l)).divInt n = _
    rw [statsSum_eq_sum l hl]
    simp only [optToF, GoFloat.divInt]
    rw [if_neg hn]
  refine ⟨havg, fun heq => ?_⟩
  rw [havg]
  simp only [specMean]
  rw [heq]

/-- Witness for the amended C2 at latencies `[10]`, two requests and one
failure: the reported mean is the 10 ms sum divided by the 2 requests. -/
theorem c2_amended_witness :
    (printStats [10] 1 2 1).avg = .real (([10] : List ℚ).sum / ((2 : Int) : ℚ)) ∧
    (((2 : Int) : ℚ) = (([10] : List ℚ).length : ℚ) →
      (printStats [10] 1 2 1).avg = .real (specMean [10])) :=
  c2_amended [10] 1 2 1 (by simp) (by norm_num)

/-- C3: on the empty latency collection `printStats` reports the
not-a-number sentinel for minimum, median, maximum, mean and every
percentile, while still reporting the request count and the failure count
exactly as given. -/
theorem c3_empty_latencies (t : ℚ) (n f : Int) :
    (printStats [] t n f).min = .nan ∧
    (printStats [] t n f).median = .nan ∧
    (printStats [] t n f).max = .nan ∧
    (printStats [] t n f).avg = .nan ∧
    (∀ p ∈ (printStats [] t n f).percentiles, p = GoFloat.nan) ∧
    (printStats [] t n f).numRequests = n ∧
    (printStats [] t n f).numFails = f := by
  refine ⟨rfl, rfl, rfl, rfl, ?_, rfl, rfl⟩
  intro p hp
  simp [printStats, pthresholds, percentile, optToF] at hp
  simp [hp]

/-- C4: a call is classified successful by `fire` exactly when a response is
fully received with HTTP status 200; every other outcome (transport error or
timeout, body-read error, non-200 status) yields `success = false` together
with a returned body string, and a failed call never aborts the worker: the
worker still emits exactly one outcome per payload it pulls. -/
theorem c4_success_classification :
    (∀ r : HttpResult, ((fire r).2 = true ↔ ∃ body, r = .ok 200 body)) ∧
    (∀ (q : List Payload) (c : Bool) (beh : Payload → HttpResult)
       (lat : Payload → Int), (workerRun q c beh lat).1.length = q.length) := by
  constructor
  · intro r
    cases r with
    | transportError msg => simp [fire]
    | readError msg => simp [fire]
    | ok status body =>
        simp only [fire]
        constructor
        · intro h
          have hs : status = 200 := by
            simpa using h
          exact ⟨body, by rw [hs]⟩
        · rintro ⟨b, hb⟩
          cases hb
          rfl
  · intro q c beh lat
    exact workerRun_length beh lat q c

/-- C5 counterexample: `runTask` never closes the `pipeline` channel — its
operation trace holds no close — so a worker that has drained the queue ends
blocked on the next receive instead of terminating, refuting the claim that
every worker terminates once the queue has been closed and drained. -/
theorem c5_counterexample :
    pipelineClosed (runTaskPipelineOps 2) = false ∧
    (workerRun ["b"] (pipelineClosed (runTaskPipelineOps 2))
      (fun _ => .transportError "x") (fun _ => 1)).2 = .blockedOnRecv ∧
    WorkerEnd.blockedOnRecv ≠ WorkerEnd.terminated := by
  exact ⟨rfl, rfl, by decide⟩

/-- C5 amended: `runTask` performs only sends on the work queue and never
closes it, so after processing the payloads it received — one emitted
outcome per payload — a worker remains blocked pulling from the queue; a
worker loop would terminate exactly if the queue were closed. -/
theorem c5_amended (n : Nat) (q : List Payload)
    (beh : Payload → HttpResult) (lat : Payload → Int) :
    pipelineClosed (runTaskPipelineOps n) = false ∧
    (workerRun q (pipelineClosed (runTaskPipelineOps n)) beh lat).1.length = q.length ∧
    (workerRun q (pipelineClosed (runTaskPipelineOps n)) beh lat).2 = .blockedOnRecv ∧
    (∀ c : Bool, ((workerRun q c beh lat).2 = .terminated ↔ c = true)) := by
  have hclosed : pipelineClosed (runTaskPipelineOps n) = false := by
    simp [pipelineClosed, runTaskPipelineOps]
  refine ⟨hclosed, workerRun_length beh lat q _, ?_, ?_⟩
  · rw [workerRun_end, hclosed]
    simp
  · intro c
    rw [workerRun_end]
    cases c <;> simp

/-- C6 counterexample: with the metrics sink enabled, a failed sink write on
an ordinary successful request makes the worker iteration panic instead of
emitting its outcome — a sink write failure IS a per-request condition and
the fault crosses the worker boundary, refuting the claim. -/
theorem c6_counterexample :
    workerIteration true .failed (.ok 200 "ok") 5 =
      .error "panic: metrics sink write failed" := rfl

/-- C6 amended: a sink OPEN failure is fatal at worker start; a sink WRITE
failure during the loop is fatal at the request where it occurs (the worker
panics rather than emitting an outcome); when the sink is disabled or the
write succeeds, every call — including every failed HTTP call — is converted
into exactly one emitted outcome and never aborts the worker. -/
theorem c6_amended (sink : SinkWrite) (r : HttpResult) (lat : Int) (b : Bool) :
    workerIteration false sink r lat = .ok ⟨(fire r).1, (fire r).2, lat⟩ ∧
    workerIteration true .ok r lat = .ok ⟨(fire r).1, (fire r).2, lat⟩ ∧
    workerIteration true .failed r lat = .error "panic: metrics sink write failed" ∧
    workerStartup false b = .ok false ∧
    workerStartup true false = .ok true ∧
    workerStartup true true = .error "panic: cannot open metrics.log" := by
  refine ⟨?_, rfl, rfl, ?_, rfl, rfl⟩
  · cases sink <;> rfl
  · simp [workerStartup]

/-- C7 counterexample: the schedule string `"1@1,x@1"` contains an invalid
milestone, yet the run executes the first stage `(1, 1)` before aborting —
so a syntactically invalid schedule does NOT terminate the run before any
stage starts, refuting the claim. -/
theorem c7_counterexample :
    parseMilestone "x@1" = none ∧
    "x@1" ∈ goSplit "1@1,x@1" ',' ∧
    scheduleRun "1@1,x@1" = ([(1, 1)], true) ∧
    ([(1, 1)] : List (Int × Int)) ≠ [] := by
  refine ⟨rfl, ?_, rfl, by simp⟩
  show "x@1" ∈ ["1@1", "x@1"]
  simp

/-- C7 amended: the schedule loop parses and runs milestone by milestone:
exactly the stages of the longest valid prefix of the milestone list are
executed, and the run aborts exactly when some milestone is invalid; in
particular no stage at all runs only when the FIRST milestone is already
invalid. -/
theorem c7_amended (s : String) (ms ms2 : List String) (m : String) :
    (milestoneLoop ms).1 =
      (ms.takeWhile (fun x => (parseMilestone x).isSome)).filterMap parseMilestone ∧
    ((milestoneLoop ms).2 = true ↔ ¬ ∀ x ∈ ms, (parseMilestone x).isSome = true) ∧
    ((milestoneLoop (m :: ms2)).1 = [] ↔ parseMilestone m = none) ∧
    (scheduleRun s).1 =
      ((goSplit s ',').takeWhile (fun x => (parseMilestone x).isSome)).filterMap
        parseMilestone := by
  refine ⟨milestoneLoop_fst ms, milestoneLoop_snd ms, ?_, milestoneLoop_fst _⟩
  cases h : parseMilestone m with
  | none => simp [milestoneLoop, h]
  | some st => simp [milestoneLoop, h]

/-- C8: for every non-empty latency collection, the percentile computation
used by `printStats` evaluated at threshold 100 returns the maximum of the
collection — an element of the collection that bounds every element — and
that value is exactly what the last entry of the percentile table reports. -/
theorem c8_percentile_100_max (l : List ℚ) (t : ℚ) (n f : Int) (hl : l ≠ []) :
    percentile l 100 = statsMax l ∧
    ∃ m, statsMax l = some m ∧ m ∈ l ∧ (∀ x ∈ l, x ≤ m) ∧
      (printStats l t n f).percentiles.getD 5 GoFloat.nan = .real m := by
  rcases statsMax_spec l hl with ⟨m, hmax, hmem, hub⟩
  refine ⟨percentile_100_eq_statsMax l hl, m, hmax, hmem, hub, ?_⟩
  have hp : percentile l 100 = some m := by
    rw [percentile_100_eq_statsMax l hl, hmax]
  simp [printStats, pthresholds, hp, optToF, List.getD]

/-- Witness for C8 at the concrete latency collection `[3, 1, 2]`. -/
theorem c8_witness :
    percentile [3, 1, 2] 100 = statsMax [3, 1, 2] ∧
    ∃ m, statsMax [3, 1, 2] = some m ∧ m ∈ ([3, 1, 2] : List ℚ) ∧
      (∀ x ∈ ([3, 1, 2] : List ℚ), x ≤ m) ∧
      (printStats [3, 1, 2] 1 3 0).percentiles.getD 5 GoFloat.nan = .real m :=
  c8_percentile_100_max [3, 1, 2] 1 3 0 (by simp)

/-- C9: the `pipeline` channel is created with capacity `numRequests`, hence
capacity at least `numRequests`, and filling it with all `numRequests`
payloads before the workers start never blocks the producer: every send
finds room in the buffer. -/
theorem c9_queue_capacity (n : Nat) :
    pipelineCapacity n = n ∧
    n ≤ pipelineCapacity n ∧
    enqueueFill (pipelineCapacity n) n 0 = some n := by
  refine ⟨rfl, le_refl n, ?_⟩
  simpa using enqueueFill_no_block n (pipelineCapacity n) 0 (by simp [pipelineCapacity])

/-- C10: the drain loop records, for each successful response, exactly the
nanosecond latency divided by 10^6 (milliseconds); the metrics sink receives
the same millisecond value; and the stage elapsed time is the nanosecond
duration divided by 10^9 (seconds) — witnessed by the exact conversion
identities over ℚ. -/
theorem c10_units (f : Nat → Response) (n : Nat) (L E : Int) :
    (drainLoop f n).1 =
      (((List.range n).map f).filter (fun r => r.success)).map
        (fun r => latencyToMs r.latency) ∧
    metricsLineValue L = latencyToMs L ∧
    latencyToMs L * 1000000 = (L : ℚ) ∧
    elapsedToSeconds E * 1000000000 = (E : ℚ) := by
  refine ⟨?_, rfl, ?_, ?_⟩
  · induction n with
    | zero => simp [drainLoop]
    | succ k ih =>
        by_cases h : (f k).success <;>
          simp [drainLoop, h, List.range_succ, List.filter_append, ih]
  · rw [latencyToMs]
    exact div_mul_cancel₀ _ (by norm_num)
  · rw [elapsedToSeconds]
    exact div_mul_cancel₀ _ (by norm_num)

end Cannonade
